import Mathlib

/-!
Verification of the project-awareness session consolidation / restoration
pipeline of this repository: the quick smart-session generator
(`generateQuickSmartSession` / `generateSmartContent`), the smart-start
restorer (`startSmartSession` / `loadSmartSession`), and the post-tool hook
(keyword scoring, project suggestion, and usage-statistics update inside
`postToolAnalysis`).

Strings are modelled by Lean `String`; the JavaScript string operations
`includes`, `endsWith` and `toLowerCase` are embedded as executable
functions over the underlying character lists (all inputs of interest are
ASCII, where the JS and Lean notions agree).  A project directory is an
association list from file name to file content; `readdirSync` is the list
of names and `writeFileSync` replaces the entry (or appends a new one).
-/

/-- JS `hay.includes(needle)`: `needle` occurs contiguously in `hay`. -/
def strIncludes (hay needle : String) : Bool :=
  hay.data.tails.any (fun t => needle.data.isPrefixOf t)

/-- JS `s.endsWith(suffix)`. -/
def strEndsWith (s suffix : String) : Bool :=
  suffix.data.isSuffixOf s.data

/-- JS `s.toLowerCase()` (ASCII case mapping, as in `Char.toLower`). -/
def toLowerStr (s : String) : String :=
  ⟨s.data.map Char.toLower⟩

/-!
## Quick smart-session generator (quick-smart-sessions script)

`generateQuickSmartSession(projectName)` lists the project directory,
keeps files ending in `.jsonl` whose name does not contain `SMART-START`,
returns early when none exist, and otherwise writes
`generateSmartContent(projectName, sessionFiles)` to
`<projectName>-SMART-START.jsonl` in that directory.
-/

/-- Filter applied to `readdirSync` output: session files are the `.jsonl`
files whose name does not contain `SMART-START`. -/
def sessionFilter (file : String) : Bool :=
  strEndsWith file ".jsonl" && !(strIncludes file "SMART-START")

/-- A project directory: file names paired with file contents. -/
abbrev ProjectDir := List (String × String)

/-- The session files found in a directory listing. -/
def sessionFilesOf (dir : ProjectDir) : List String :=
  (dir.map Prod.fst).filter sessionFilter

/-- Name of the consolidated record file, `${projectName}-SMART-START.jsonl`. -/
def recordName (p : String) : String :=
  p ++ "-SMART-START.jsonl"

/-- `fs.writeFileSync` inside one directory: replace the content of an
existing file of that name, otherwise create the file. -/
def writeFile (dir : ProjectDir) (name content : String) : ProjectDir :=
  if (dir.map Prod.fst).contains name then
    dir.map (fun e => if e.1 = name then (name, content) else e)
  else
    dir ++ [(name, content)]

/-- The `smartSession` header object of `generateSmartContent`. -/
structure SmartSessionHeader where
  type : String
  project : String
  generated_at : String
  consolidated_sessions : Nat
  version : String
  generation_method : String
deriving DecidableEq

/-- Header built by `generateSmartContent`: the count field is the number
of session files passed in.  The `new Date().toISOString()` timestamp is
the parameter `ts`. -/
def smartHeaderOf (p ts : String) (files : List String) : SmartSessionHeader :=
  ⟨"smart_start_session", p, ts, files.length, "1.0.0", "quick_consolidation"⟩

/-- JSON string escaping (model of `JSON.stringify` for the characters the
generator emits: quote, backslash and the control characters appearing in
the templates). -/
def jsonEscapeChar (c : Char) : String :=
  if c = '"' then "\\\""
  else if c = '\\' then "\\\\"
  else if c = '\n' then "\\n"
  else if c = '\t' then "\\t"
  else if c = '\r' then "\\r"
  else ⟨[c]⟩

/-- Escape a whole string for inclusion in a JSON string literal. -/
def jsonEscape (s : String) : String :=
  s.data.foldl (fun acc c => acc ++ jsonEscapeChar c) ""

/-- Serialization of the header object (JSON.stringify keeps insertion
order of the fields). -/
def headerLine (h : SmartSessionHeader) : String :=
  "\x7b\"type\":\"" ++ jsonEscape h.type
    ++ "\",\"project\":\"" ++ jsonEscape h.project
    ++ "\",\"generated_at\":\"" ++ jsonEscape h.generated_at
    ++ "\",\"consolidated_sessions\":" ++ toString h.consolidated_sessions
    ++ ",\"version\":\"" ++ jsonEscape h.version
    ++ "\",\"generation_method\":\"" ++ jsonEscape h.generation_method
    ++ "\"\x7d"

/-- Serialization of a `{role, content, timestamp}` message object. -/
def messageLine (role content ts : String) : String :=
  "\x7b\"role\":\"" ++ jsonEscape role
    ++ "\",\"content\":\"" ++ jsonEscape content
    ++ "\",\"timestamp\":\"" ++ jsonEscape ts
    ++ "\"\x7d"

/-- The `contextMessage.content` template of `generateSmartContent`. -/
def contextContent (p : String) (n : Nat) : String :=
  "## 🧠 Smart Session Context for " ++ p
    ++ "\n\n**Project Intelligence:** Synthesized from " ++ toString n
    ++ " previous sessions\n\n### 📊 Project Overview\nThis is your consolidated smart session for **"
    ++ p ++ "**. Based on " ++ toString n
    ++ " previous work sessions, this project appears to be an active area of focus.\n\n### 🚀 Ready to Continue\nYour previous work on **"
    ++ p
    ++ "** is available for context. The system has consolidated your session history and is ready to assist with continued work on this project.\n\n### 💡 Session History Available\n- **Total Sessions**: "
    ++ toString n
    ++ "\n- **Latest Activity**: Recent work detected\n- **Context Preserved**: Previous decisions and patterns maintained\n\n**Ready to work on "
    ++ p ++ "!** 🎯"

/-- The `suggestions.content` template of `generateSmartContent`. -/
def suggestionsContent (p : String) (n : Nat) : String :=
  "## 🔧 Quick Start Suggestions for " ++ p
    ++ "\n\nBased on this being an active project with " ++ toString n
    ++ " sessions:\n\n- Review recent file changes\n- Continue previous workflows  \n- Access project-specific resources\n- Build on established patterns\n\nThis smart session provides instant context restoration for efficient project continuation."

/-- `generateSmartContent(projectName, sessionFiles)`: the three JSON
objects (header, context message, suggestions message) serialized and
joined by newlines. -/
def generateSmartContent (p ts : String) (files : List String) : String :=
  headerLine (smartHeaderOf p ts files) ++ "\n"
    ++ messageLine "assistant" (contextContent p files.length) ts ++ "\n"
    ++ messageLine "system" (suggestionsContent p files.length) ts

/-- `generateQuickSmartSession(projectName)` acting on the project
directory: early return when no session files exist, otherwise write the
consolidated record to `recordName p`. -/
def generateQuickSmartSession (p ts : String) (dir : ProjectDir) : ProjectDir :=
  let sessionFiles := sessionFilesOf dir
  if sessionFiles.length = 0 then dir
  else writeFile dir (recordName p) (generateSmartContent p ts sessionFiles)

/-!
### Association-list lemmas for `writeFile`
-/

theorem lookup_none_of_contains_eq_false {β : Type} (dir : List (String × β)) (name : String)
    (h : (dir.map Prod.fst).contains name = false) : List.lookup name dir = none := by
  induction dir with
  | nil => rfl
  | cons e es ih =>
    obtain ⟨k, v⟩ := e
    simp only [List.map_cons, List.contains_cons, Bool.or_eq_false_iff] at h
    have hk : (name == k) = false := by
      cases hbeq : (name == k)
      · rfl
      · exact absurd (by simpa [eq_comm] using (beq_iff_eq.mp hbeq)) (by simpa using h.1)
    simp [List.lookup, hk, ih h.2]

theorem lookup_append_singleton {β : Type} (dir : List (String × β)) (name : String) (c : β)
    (h : List.lookup name dir = none) :
    List.lookup name (dir ++ [(name, c)]) = some c := by
  induction dir with
  | nil => simp [List.lookup]
  | cons e es ih =>
    obtain ⟨k, v⟩ := e
    by_cases hk : name = k
    · subst hk
      simp [List.lookup] at h
    · have hbeq : (name == k) = false := by simp [hk]
      simp only [List.lookup, hbeq] at h
      simpa [List.lookup, hbeq] using ih h

theorem lookup_map_overwrite {β : Type} (dir : List (String × β)) (name : String) (c : β)
    (h : (dir.map Prod.fst).contains name = true) :
    List.lookup name (dir.map (fun e => if e.1 = name then (name, c) else e)) = some c := by
  induction dir with
  | nil => simp at h
  | cons e es ih =>
    obtain ⟨k, v⟩ := e
    simp only [List.map_cons]
    by_cases hk : k = name
    · subst hk
      rw [show (if (k, v).1 = k then (k, c) else (k, v)) = (k, c) from by simp]
      simp [List.lookup]
    · have hbeq : (name == k) = false := by simp [Ne.symm hk]
      rw [show (if (k, v).1 = name then (name, c) else (k, v)) = (k, v) from by simp [hk]]
      simp only [List.map_cons, List.contains_cons, Bool.or_eq_true] at h
      rcases h with h | h
      · exact absurd (by simpa [eq_comm] using beq_iff_eq.mp h) (Ne.symm hk)
      · simpa [List.lookup, hbeq] using ih h

/-- After `writeFile dir name c`, reading `name` gives `c`. -/
theorem lookup_writeFile_self (dir : ProjectDir) (name c : String) :
    List.lookup name (writeFile dir name c) = some c := by
  unfold writeFile
  by_cases h : (dir.map Prod.fst).contains name = true
  · rw [if_pos h]
    exact lookup_map_overwrite dir name c h
  · rw [if_neg h]
    have h0 : (dir.map Prod.fst).contains name = false := by
      cases hb : (dir.map Prod.fst).contains name
      · rfl
      · exact absurd hb h
    exact lookup_append_singleton dir name c (lookup_none_of_contains_eq_false dir name h0)

/-- `writeFile` either keeps the name list unchanged (overwrite) or appends
the new name at the end. -/
theorem map_fst_writeFile (dir : ProjectDir) (name c : String) :
    (writeFile dir name c).map Prod.fst =
      if (dir.map Prod.fst).contains name then dir.map Prod.fst
      else dir.map Prod.fst ++ [name] := by
  unfold writeFile
  by_cases h : (dir.map Prod.fst).contains name = true
  · rw [if_pos h, if_pos h, List.map_map]
    refine List.map_congr_left ?_
    intro e _
    simp only [Function.comp_apply]
    by_cases he : e.1 = name
    · rw [if_pos he]
      simp [he]
    · rw [if_neg he]
  · rw [if_neg h, if_neg h, List.map_append]
    rfl

/-!
### The consolidated record is never counted as a session file
-/

theorem mem_tails_append (pre t : List Char) : t ∈ (pre ++ t).tails := by
  induction pre with
  | nil =>
    cases t <;> simp [List.tails]
  | cons a pre ih =>
    simp only [List.cons_append, List.tails, List.mem_cons]
    exact Or.inr ih

/-- The record name contains `SMART-START` whatever the project name is. -/
theorem strIncludes_recordName (p : String) :
    strIncludes (recordName p) "SMART-START" = true := by
  unfold strIncludes recordName
  refine List.any_eq_true.mpr ⟨"SMART-START.jsonl".data, ?_, by decide⟩
  have hdata : (p ++ "-SMART-START.jsonl").data
      = (p.data ++ ['-']) ++ "SMART-START.jsonl".data := by
    rw [String.data_append, List.append_assoc]
    congr 1
  rw [hdata]
  exact mem_tails_append _ _

/-- The session-file filter rejects the consolidated record. -/
theorem sessionFilter_recordName (p : String) :
    sessionFilter (recordName p) = false := by
  unfold sessionFilter
  rw [strIncludes_recordName]
  simp

/-- Writing the consolidated record leaves the set of session files
unchanged. -/
theorem sessionFilesOf_writeRecord (dir : ProjectDir) (p c : String) :
    sessionFilesOf (writeFile dir (recordName p) c) = sessionFilesOf dir := by
  unfold sessionFilesOf
  rw [map_fst_writeFile]
  by_cases h : (dir.map Prod.fst).contains (recordName p) = true
  · rw [if_pos h]
  · rw [if_neg h, List.filter_append]
    simp [sessionFilter_recordName]

/-- Running the generator leaves the set of session files unchanged. -/
theorem sessionFilesOf_generate (dir : ProjectDir) (p ts : String) :
    sessionFilesOf (generateQuickSmartSession p ts dir) = sessionFilesOf dir := by
  unfold generateQuickSmartSession
  by_cases h : (sessionFilesOf dir).length = 0
  · rw [if_pos h]
  · rw [if_neg h]
    exact sessionFilesOf_writeRecord dir p _

/-!
## Post-tool hook: keyword scoring and project suggestion

The post-tool hook (`postToolAnalysis`) lowercases the tool result and,
only when the result is longer than 100 characters, scores it against a
fixed table of project keyword lists.  A project enters `projectMatches`
when at least one keyword occurs in the lowercased result, carrying
`matches` (the number of occurring keywords) and
`confidence = matches / keywords.length`.  `strongMatches` keeps the
entries with confidence above `0.3`, in table order (no sorting), and a
suggestion is logged when `strongMatches[0]` exists and names a project
different from the current one.

Confidences are exact quotients of small naturals here (denominators 4, 5
and 6); every comparison the script performs on its IEEE doubles agrees
with the exact rational comparison at these magnitudes (distinct rationals
with denominator at most 6 differ by at least 1/30, and none lies within
1/30 of 0.3), so scores are embedded as the pair `matches` / `total` and
compared exactly by cross-multiplication, with the rational value exposed
by `ProjectMatch.confidence`.
-/

/-- The fixed `projectKeywords` table, in declaration order. -/
def projectKeywords : List (String × List String) :=
  [("Arias-v-Bianchi", ["arias", "bianchi", "legal", "court", "evidence", "motion"]),
   ("ChittyOS-Core", ["chittyos", "mcp", "server", "canon"]),
   ("ChittyFinance", ["finance", "invoice", "payment", "accounting", "money"]),
   ("ChiCo-Properties", ["property", "rental", "tenant", "lease", "chicago"]),
   ("IT-CAN-BE-LLC", ["wyoming", "llc", "corporate", "entity"])]

/-- `keywords.filter(keyword => lowerResult.includes(keyword)).length` for
one project: the number of its keywords occurring in the lowercased
result. -/
def matchCount (result : String) (keywords : List String) : Nat :=
  (keywords.filter (fun kw => strIncludes (toLowerStr result) kw)).length

/-- The confidence the script computes for a table entry:
`matchCount / keywords.length`, as an exact rational. -/
def codeConfidence (result : String) (pk : String × List String) : ℚ :=
  (matchCount result pk.2 : ℚ) / (pk.2.length : ℚ)

/-- One entry of `projectMatches`: the script stores
`{project, matches, confidence}`; the quotient is kept here as the exact
pair `matched` (the JS `matches` field) over `total`, with `confidence`
the derived rational value. -/
structure ProjectMatch where
  project : String
  matched : Nat
  total : Nat
deriving DecidableEq

/-- The rational value of a stored confidence. -/
def ProjectMatch.confidence (m : ProjectMatch) : ℚ :=
  (m.matched : ℚ) / (m.total : ℚ)

/-- The `projectMatches.push(...)` step for one table entry: an entry is
produced exactly when `matchCount > 0`. -/
def matchEntry (result : String) (pk : String × List String) : Option ProjectMatch :=
  if 0 < matchCount result pk.2 then some ⟨pk.1, matchCount result pk.2, pk.2.length⟩
  else none

/-- `projectMatches`, in table iteration order. -/
def projectMatches (result : String) : List ProjectMatch :=
  projectKeywords.filterMap (matchEntry result)

/-- The `m.confidence > 0.3` test, performed exactly by
cross-multiplication (`matches / total > 3 / 10`). -/
def strongPred (m : ProjectMatch) : Bool :=
  3 * m.total < 10 * m.matched

/-- `strongMatches = projectMatches.filter(m => m.confidence > 0.3)` —
note: table order is kept, the list is never sorted by confidence. -/
def strongMatches (result : String) : List ProjectMatch :=
  (projectMatches result).filter strongPred

/-- Whether the hook logs a `RELATED PROJECT DETECTED` suggestion for a
given tool result and current project: only for results longer than 100
characters, and only when the first strong match names a project other
than the current one. -/
def suggestionLogged (result currentProject : String) : Bool :=
  if 100 < result.length then
    match (strongMatches result).head? with
    | some m => m.project != currentProject
    | none => false
  else false

/-- The project a logged suggestion names: `strongMatches[0].project`. -/
def suggestedProject (result : String) : Option String :=
  ((strongMatches result).head?).map ProjectMatch.project

/-- Follows the spec's words (claim C2): the top-scoring table entry, with
ties broken in favour of the first-declared project.  Score comparison is
the exact rational comparison, by cross-multiplication. -/
def specTopMatch (result : String) : Option ProjectMatch :=
  (projectMatches result).foldl
    (fun acc m =>
      match acc with
      | none => some m
      | some b => if b.matched * m.total < m.matched * b.total then some m else some b)
    none

/-- Follows the spec's words (claim C3): the number of keywords of one
project that occur, case-insensitively, as substrings of the result. -/
def specMatchCount (result : String) (keywords : List String) : Nat :=
  (keywords.filter (fun kw => strIncludes (toLowerStr result) (toLowerStr kw))).length

/-- Follows the spec's words (claim C3): matched keywords over total
keywords. -/
def specConfidence (result : String) (pk : String × List String) : ℚ :=
  (specMatchCount result pk.2 : ℚ) / (pk.2.length : ℚ)

/-- The first-declared table entry whose confidence exceeds `3/10` (as a
rational), named by the amended claim C2. -/
def firstStrongProject (result : String) : Option String :=
  (projectKeywords.find? (fun pk => decide ((3 : ℚ) / 10 < codeConfidence result pk))).map
    Prod.fst

/-!
### Structure of `strongMatches`
-/

theorem matchCount_le (result : String) (kws : List String) :
    matchCount result kws ≤ kws.length :=
  List.length_filter_le _ _

/-- The exact cross-multiplied test agrees with the rational comparison
`confidence > 3/10` whenever `matched ≤ total` (always the case for
entries built from `matchCount`). -/
theorem strongPred_iff_confidence (m : ProjectMatch) (h : m.matched ≤ m.total) :
    strongPred m = true ↔ (3 : ℚ) / 10 < m.confidence := by
  unfold strongPred ProjectMatch.confidence
  rcases Nat.eq_zero_or_pos m.total with h0 | h0
  · have hm : m.matched = 0 := by omega
    rw [h0, hm]
    norm_num
  · have ht : (0 : ℚ) < (m.total : ℚ) := by exact_mod_cast h0
    rw [decide_eq_true_eq, div_lt_div_iff₀ (by norm_num) ht]
    constructor
    · intro h1
      have h2 : ((3 * m.total : ℕ) : ℚ) < ((10 * m.matched : ℕ) : ℚ) := by exact_mod_cast h1
      push_cast at h2
      linarith
    · intro h1
      have h2 : ((3 * m.total : ℕ) : ℚ) < ((10 * m.matched : ℕ) : ℚ) := by push_cast; linarith
      exact_mod_cast h2

theorem find?_congr_list {α : Type} (l : List α) (p q : α → Bool)
    (h : ∀ x ∈ l, p x = q x) : l.find? p = l.find? q := by
  induction l with
  | nil => rfl
  | cons a l ih =>
    cases hp : p a with
    | true =>
      rw [List.find?_cons_of_pos l hp, List.find?_cons_of_pos l (by rw [← h a (by simp)]; exact hp)]
    | false =>
      rw [List.find?_cons_of_neg l (by simp [hp]),
        List.find?_cons_of_neg l (by rw [← h a (by simp)]; simp [hp]),
        ih (fun x hx => h x (by simp [hx]))]

/-- The head of `strongMatches` is exactly the first table entry passing
the confidence test: the table is scanned in declaration order and is
never reordered by score. -/
theorem strongMatches_head_eq (result : String) :
    (strongMatches result).head?
      = (projectKeywords.find?
          (fun pk => strongPred ⟨pk.1, matchCount result pk.2, pk.2.length⟩)).map
        (fun pk => (⟨pk.1, matchCount result pk.2, pk.2.length⟩ : ProjectMatch)) := by
  unfold strongMatches projectMatches
  generalize projectKeywords = pks
  induction pks with
  | nil => rfl
  | cons pk pks ih =>
    rw [List.filterMap_cons]
    cases hme : matchEntry result pk with
    | none =>
      have hmc : ¬ 0 < matchCount result pk.2 := by
        intro hpos
        simp [matchEntry, hpos] at hme
      have hstrong : strongPred ⟨pk.1, matchCount result pk.2, pk.2.length⟩ = false := by
        have h0 : matchCount result pk.2 = 0 := by omega
        simp [strongPred, h0]
      rw [List.find?_cons_of_neg pks (by simp [hstrong]), ih]
    | some m =>
      have hpos : 0 < matchCount result pk.2 := by
        by_contra hneg
        simp [matchEntry, hneg] at hme
      have hm : m = ⟨pk.1, matchCount result pk.2, pk.2.length⟩ := by
        simp [matchEntry, hpos] at hme
        exact hme.symm
      subst hm
      rw [List.filter_cons]
      cases hs : strongPred ⟨pk.1, matchCount result pk.2, pk.2.length⟩ with
      | true =>
        rw [List.find?_cons_of_pos pks hs]
        simp [hs]
      | false =>
        rw [List.find?_cons_of_neg pks (by simp [hs])]
        simp only [hs, Bool.false_eq_true, if_false]
        exact ih

/-- The two forms of the strong-entry test agree on every table entry. -/
theorem strongPred_entry_eq_ratTest (result : String) (pk : String × List String) :
    strongPred ⟨pk.1, matchCount result pk.2, pk.2.length⟩
      = decide ((3 : ℚ) / 10 < codeConfidence result pk) := by
  apply Bool.eq_iff_iff.mpr
  rw [decide_eq_true_eq]
  exact strongPred_iff_confidence ⟨pk.1, matchCount result pk.2, pk.2.length⟩
    (matchCount_le result pk.2)

/-- What the hook actually does: a suggestion is logged exactly when the
result is longer than 100 characters and the first-declared project with
confidence above `3/10` differs from the current project. -/
theorem suggestionLogged_iff (result currentProject : String) :
    suggestionLogged result currentProject = true ↔
      100 < result.length ∧
        ∃ p, firstStrongProject result = some p ∧ p ≠ currentProject := by
  unfold suggestionLogged firstStrongProject
  have hfind : projectKeywords.find? (fun pk => decide ((3 : ℚ) / 10 < codeConfidence result pk))
      = projectKeywords.find?
          (fun pk => strongPred ⟨pk.1, matchCount result pk.2, pk.2.length⟩) :=
    find?_congr_list _ _ _ (fun pk _ => (strongPred_entry_eq_ratTest result pk).symm)
  rw [hfind, strongMatches_head_eq]
  by_cases hlen : 100 < result.length
  · rw [if_pos hlen]
    cases hf : projectKeywords.find?
        (fun pk => strongPred ⟨pk.1, matchCount result pk.2, pk.2.length⟩) with
    | none => simp [hlen]
    | some pk => simp [hlen, bne_iff_ne]
  · rw [if_neg hlen]
    simp [hlen]

/-- The logged suggestion names the first-declared strong project. -/
theorem suggestedProject_eq_firstStrong (result : String) :
    suggestedProject result = firstStrongProject result := by
  unfold suggestedProject firstStrongProject
  have hfind : projectKeywords.find? (fun pk => decide ((3 : ℚ) / 10 < codeConfidence result pk))
      = projectKeywords.find?
          (fun pk => strongPred ⟨pk.1, matchCount result pk.2, pk.2.length⟩) :=
    find?_congr_list _ _ _ (fun pk _ => (strongPred_entry_eq_ratTest result pk).symm)
  rw [hfind, strongMatches_head_eq]
  cases projectKeywords.find?
      (fun pk => strongPred ⟨pk.1, matchCount result pk.2, pk.2.length⟩) <;> rfl

/-!
## Smart-start restorer (`ChittyChatSmartStart`)

`startSmartSession(projectName)` wraps everything in one `try/catch`: it
loads the consolidated record (returning `false` when `loadSmartSession`
gives `null`), then connects to ChittyChat (that step catches its own
errors and never throws), restores the environment, displays the context,
writes the integration-status file and the restoration script, and returns
`true`; any error thrown by those steps lands in the `catch`, which
returns `false`.

The file system is a function from path to optional content
(`existsSync` / `readFileSync`), and `JSON.parse` of the record lines is a
function to an optional `SessionData` (its `try/catch` in
`loadSmartSession` maps a parse error to `null`).
-/

/-- The fields of the parsed record that `startSmartSession` consumes. -/
structure SessionData where
  consolidated_sessions : Nat
  context : Option String
  suggestions : Option String
deriving DecidableEq

/-- Fixed path of the consolidated record,
`~/.claude/projects/<name>/<name>-SMART-START.jsonl`. -/
def smartSessionPath (p : String) : String :=
  "~/.claude/projects/" ++ p ++ "/" ++ p ++ "-SMART-START.jsonl"

/-- `loadSmartSession(projectName)`: `null` when the record file does not
exist, otherwise the parse outcome (a parse error was caught and also
yields `null`). -/
def loadSmartSession (fsys : String → Option String)
    (parseRecord : String → Option SessionData) (p : String) : Option SessionData :=
  match fsys (smartSessionPath p) with
  | none => none
  | some content => parseRecord content

/-- Outcome of one effectful restoration step: normal completion or a
thrown error (which `startSmartSession`'s catch turns into `false`). -/
inductive StepResult (α : Type) where
  | ok : α → StepResult α
  | thrown : String → StepResult α
deriving DecidableEq

/-- Whether a step threw. -/
def isThrown {α : Type} : StepResult α → Bool
  | .thrown _ => true
  | .ok _ => false

/-- Modelled from the spec: the environment restorer
(`lib/environment-restorer`, required by the smart-start script) is not
among the source files; per spec section 4.2 it returns a result object
for the reconstructed working directory and may fail.  Only the fields
`startSmartSession` reads appear here. -/
structure EnvResult where
  success : Bool
  workingDirectory : String
deriving DecidableEq

/-- `startSmartSession(projectName)` with the outcomes of the external
effectful steps passed in: `restore` is the
`environmentRestorer.restoreProjectEnvironment` call (absent from the
sources, see `EnvResult`), `integrationWrite` the file write of
`setupChittyChatIntegration`, and `scriptWrite` the writes of
`createSessionScript`.  `connectToChittyChat` catches its own errors and
returns a fallback object, so it cannot change the outcome. -/
def startSmartSession (fsys : String → Option String)
    (parseRecord : String → Option SessionData)
    (restore : StepResult EnvResult)
    (integrationWrite scriptWrite : StepResult Unit) (p : String) : Bool :=
  match loadSmartSession fsys parseRecord p with
  | none => false
  | some _ =>
    match restore with
    | .thrown _ => false
    | .ok _ =>
      match integrationWrite with
      | .thrown _ => false
      | .ok _ =>
        match scriptWrite with
        | .thrown _ => false
        | .ok _ => true

/-!
## Post-tool hook: project usage statistics

After the suggestion analysis, `postToolAnalysis` reads
`project-stats.json`, creates a zeroed entry for the current project if
none exists, then increments `tool_uses`, stamps `last_used`, and replaces
`directories` and `agents_used` by `[...new Set([...old, current])]` —
first-occurrence-order deduplication with the current value appended.
-/

/-- One project's entry in `project-stats.json`. -/
structure ProjectStats where
  tool_uses : Nat
  last_used : Option String
  directories : List String
  agents_used : List String
deriving DecidableEq

/-- The zeroed entry created for a project first seen. -/
def emptyStats : ProjectStats :=
  ⟨0, none, [], []⟩

/-- One step of JS `Set` insertion: append if absent. -/
def jsSetInsert (acc : List String) (x : String) : List String :=
  if x ∈ acc then acc else acc ++ [x]

/-- `[...new Set(l)]`: first-occurrence-order deduplication. -/
def jsSetDedup (l : List String) : List String :=
  l.foldl jsSetInsert []

/-- The statistics update of `postToolAnalysis` for one invocation:
current project `cp`, working directory `cd`, agent name `an`, timestamp
`ts`. -/
def updateStats (stats : List (String × ProjectStats)) (cp cd an ts : String) :
    List (String × ProjectStats) :=
  let ensured := if (List.lookup cp stats).isSome then stats else stats ++ [(cp, emptyStats)]
  ensured.map (fun e =>
    if e.1 = cp then
      (cp, ⟨e.2.tool_uses + 1, some ts,
            jsSetDedup (e.2.directories ++ [cd]),
            jsSetDedup (e.2.agents_used ++ [an])⟩)
    else e)

/-- The entry the update starts from: the stored one, or the zeroed entry
when the project is first seen. -/
def prevStats (stats : List (String × ProjectStats)) (cp : String) : ProjectStats :=
  (List.lookup cp stats).getD emptyStats

/-!
### Lemmas about `jsSetDedup` and `updateStats`
-/

theorem mem_foldl_jsSetInsert (l : List String) :
    ∀ (acc : List String) (y : String), y ∈ l.foldl jsSetInsert acc ↔ y ∈ acc ∨ y ∈ l := by
  induction l with
  | nil => simp
  | cons x l ih =>
    intro acc y
    rw [List.foldl_cons, ih]
    unfold jsSetInsert
    by_cases hx : x ∈ acc
    · rw [if_pos hx]
      constructor
      · rintro (h | h)
        · exact Or.inl h
        · exact Or.inr (List.mem_cons_of_mem x h)
      · rintro (h | h)
        · exact Or.inl h
        · rcases List.mem_cons.mp h with h | h
          · exact Or.inl (h ▸ hx)
          · exact Or.inr h
    · rw [if_neg hx]
      simp only [List.mem_append, List.mem_singleton, List.mem_cons]
      tauto

theorem nodup_foldl_jsSetInsert (l : List String) :
    ∀ acc : List String, acc.Nodup → (l.foldl jsSetInsert acc).Nodup := by
  induction l with
  | nil => exact fun acc h => h
  | cons x l ih =>
    intro acc hacc
    rw [List.foldl_cons]
    refine ih _ ?_
    unfold jsSetInsert
    by_cases hx : x ∈ acc
    · rwa [if_pos hx]
    · rw [if_neg hx]
      rw [List.nodup_append]
      refine ⟨hacc, List.nodup_singleton x, ?_⟩
      intro a ha hax
      rw [List.mem_singleton] at hax
      exact hx (hax ▸ ha)

theorem jsSetDedup_nodup (l : List String) : (jsSetDedup l).Nodup :=
  nodup_foldl_jsSetInsert l [] List.nodup_nil

theorem mem_jsSetDedup (l : List String) (y : String) : y ∈ jsSetDedup l ↔ y ∈ l := by
  unfold jsSetDedup
  rw [mem_foldl_jsSetInsert]
  simp

theorem lookup_map_set {β : Type} (l : List (String × β)) (cp : String) (f : β → β) :
    List.lookup cp (l.map (fun e => if e.1 = cp then (cp, f e.2) else e))
      = (List.lookup cp l).map f := by
  induction l with
  | nil => rfl
  | cons e es ih =>
    obtain ⟨k, v⟩ := e
    simp only [List.map_cons]
    by_cases hk : k = cp
    · subst hk
      rw [show (if (k, v).1 = k then (k, f (k, v).2) else (k, v)) = (k, f v) from by simp]
      simp [List.lookup]
    · have hbeq : (cp == k) = false := by simp [Ne.symm hk]
      rw [show (if (k, v).1 = cp then (cp, f (k, v).2) else (k, v)) = (k, v) from by simp [hk]]
      simp only [List.lookup, hbeq]
      exact ih

theorem lookup_ensured (stats : List (String × ProjectStats)) (cp : String) :
    List.lookup cp
        (if (List.lookup cp stats).isSome then stats else stats ++ [(cp, emptyStats)])
      = some (prevStats stats cp) := by
  cases h : List.lookup cp stats with
  | some v => simp [h, prevStats]
  | none =>
    rw [if_neg (by simp [h]), prevStats, h]
    exact lookup_append_singleton stats cp emptyStats h

/-!
## Claims
-/

/-- When at least one session file exists, the generator is exactly a
`writeFile` of the serialized record to the fixed record path. -/
theorem generateQuickSmartSession_eq_write (dir : ProjectDir) (p ts : String)
    (h : sessionFilesOf dir ≠ []) :
    generateQuickSmartSession p ts dir
      = writeFile dir (recordName p) (generateSmartContent p ts (sessionFilesOf dir)) := by
  simp only [generateQuickSmartSession]
  rw [if_neg (by simpa [List.length_eq_zero] using h)]

/-- C1: for a project directory holding N session files (`.jsonl` files
whose name does not contain `SMART-START`), N ≥ 1, consolidation writes
the record serialized from a header whose `consolidated_sessions` field
equals N. -/
theorem claim_c1_header_count (dir : ProjectDir) (p ts : String)
    (h : 1 ≤ (sessionFilesOf dir).length) :
    (smartHeaderOf p ts (sessionFilesOf dir)).consolidated_sessions = (sessionFilesOf dir).length
    ∧ List.lookup (recordName p) (generateQuickSmartSession p ts dir)
        = some (generateSmartContent p ts (sessionFilesOf dir)) := by
  refine ⟨rfl, ?_⟩
  rw [generateQuickSmartSession_eq_write dir p ts (by
    intro hnil
    rw [hnil] at h
    simp at h)]
  exact lookup_writeFile_self dir _ _

/-- C1 witness: a directory with one session file. -/
theorem claim_c1_witness :
    1 ≤ (sessionFilesOf [("a.jsonl", "x")]).length
    ∧ ((smartHeaderOf "Demo" "T" (sessionFilesOf [("a.jsonl", "x")])).consolidated_sessions
          = (sessionFilesOf [("a.jsonl", "x")]).length
      ∧ List.lookup (recordName "Demo") (generateQuickSmartSession "Demo" "T" [("a.jsonl", "x")])
          = some (generateSmartContent "Demo" "T" (sessionFilesOf [("a.jsonl", "x")]))) :=
  ⟨by decide, claim_c1_header_count [("a.jsonl", "x")] "Demo" "T" (by decide)⟩

/-- C6: with at least one session file the generator writes exactly the
three serialized lines (header, context, suggestions) joined by newlines
to the fixed record path; with none it returns early and the directory is
untouched. -/
theorem claim_c6_three_line_record (dir : ProjectDir) (p ts : String) :
    (sessionFilesOf dir = [] → generateQuickSmartSession p ts dir = dir)
    ∧ (sessionFilesOf dir ≠ [] →
        List.lookup (recordName p) (generateQuickSmartSession p ts dir)
          = some (headerLine (smartHeaderOf p ts (sessionFilesOf dir)) ++ "\n"
              ++ messageLine "assistant" (contextContent p (sessionFilesOf dir).length) ts ++ "\n"
              ++ messageLine "system" (suggestionsContent p (sessionFilesOf dir).length) ts)) := by
  constructor
  · intro h
    simp only [generateQuickSmartSession]
    rw [if_pos (by simp [h])]
  · intro h
    rw [generateQuickSmartSession_eq_write dir p ts h]
    exact lookup_writeFile_self dir _ _

/-- C6 witness: one directory with no session file, one with a session
file. -/
theorem claim_c6_witness :
    (sessionFilesOf [("notes.txt", "x")] = []
      ∧ generateQuickSmartSession "Demo" "T" [("notes.txt", "x")] = [("notes.txt", "x")])
    ∧ (sessionFilesOf [("b.jsonl", "y")] ≠ []
      ∧ List.lookup (recordName "Demo") (generateQuickSmartSession "Demo" "T" [("b.jsonl", "y")])
          = some (headerLine (smartHeaderOf "Demo" "T" (sessionFilesOf [("b.jsonl", "y")])) ++ "\n"
              ++ messageLine "assistant"
                  (contextContent "Demo" (sessionFilesOf [("b.jsonl", "y")]).length) "T" ++ "\n"
              ++ messageLine "system"
                  (suggestionsContent "Demo" (sessionFilesOf [("b.jsonl", "y")]).length) "T")) :=
  ⟨⟨by decide, (claim_c6_three_line_record [("notes.txt", "x")] "Demo" "T").1 (by decide)⟩,
   ⟨by decide, (claim_c6_three_line_record [("b.jsonl", "y")] "Demo" "T").2 (by decide)⟩⟩

/-- C7: running consolidation twice leaves, at the record path, exactly
the record of the second run alone (computed from the original session
files and the second timestamp) — nothing of the first record remains. -/
theorem claim_c7_overwrite (dir : ProjectDir) (p ts1 ts2 : String)
    (h : sessionFilesOf dir ≠ []) :
    List.lookup (recordName p)
        (generateQuickSmartSession p ts2 (generateQuickSmartSession p ts1 dir))
      = some (generateSmartContent p ts2 (sessionFilesOf dir)) := by
  have hstable := sessionFilesOf_generate dir p ts1
  rw [generateQuickSmartSession_eq_write _ p ts2 (by rw [hstable]; exact h), hstable]
  exact lookup_writeFile_self _ _ _

/-- C7 witness: a directory with one session file, consolidated twice
with different timestamps. -/
theorem claim_c7_witness :
    sessionFilesOf [("a.jsonl", "x")] ≠ []
    ∧ List.lookup (recordName "Demo")
        (generateQuickSmartSession "Demo" "T2" (generateQuickSmartSession "Demo" "T1" [("a.jsonl", "x")]))
      = some (generateSmartContent "Demo" "T2" (sessionFilesOf [("a.jsonl", "x")])) :=
  ⟨by decide, claim_c7_overwrite [("a.jsonl", "x")] "Demo" "T1" "T2" (by decide)⟩

/-- C8: the consolidated record is never counted as a source session: the
session-file filter rejects the record name, and running the generator
leaves the session-file list (hence its count) unchanged. -/
theorem claim_c8_record_not_counted (dir : ProjectDir) (p ts : String) :
    sessionFilter (recordName p) = false
    ∧ sessionFilesOf (generateQuickSmartSession p ts dir) = sessionFilesOf dir :=
  ⟨sessionFilter_recordName p, sessionFilesOf_generate dir p ts⟩

/-- Tool result longer than 100 characters in which `Arias-v-Bianchi`
matches 2 of its 6 keywords (confidence 1/3) while `ChittyOS-Core`
matches 3 of its 4 (confidence 3/4): the top scorer is not the
first-declared strong match. -/
def c2LongResult : String :=
  "arias bianchi chittyos mcp server xxxxxxxxxxxxxxxxxxxxxxxxxxxxxxxxxxxxxxxxxxxxxxxxxxxxxxxxxxxxxxxxxxxxxxxxxxxxxx"

/-- Tool result of 25 characters in which `Arias-v-Bianchi` matches 4 of
its 6 keywords (confidence 2/3). -/
def c2ShortResult : String :=
  "arias bianchi legal court"

/-- C2 counterexample: with current project `ChittyOS-Core` and the long
result, the top-scoring project is `ChittyOS-Core` itself (confidence 3/4,
above 3/10), so the claim says no suggestion is logged — yet the hook logs
one, and it names `Arias-v-Bianchi`, not the top scorer.  With the short
result, the top scorer `Arias-v-Bianchi` has confidence 2/3 above 3/10 and
differs from the current project `none`, so the claim says a suggestion is
logged — yet the hook logs none (the result is not longer than 100
characters). -/
theorem claim_c2_counterexample :
    (suggestionLogged c2LongResult "ChittyOS-Core" = true
      ∧ specTopMatch c2LongResult = some ⟨"ChittyOS-Core", 3, 4⟩
      ∧ (3 : ℚ) / 10 < ProjectMatch.confidence ⟨"ChittyOS-Core", 3, 4⟩
      ∧ suggestedProject c2LongResult = some "Arias-v-Bianchi")
    ∧ (suggestionLogged c2ShortResult "none" = false
      ∧ specTopMatch c2ShortResult = some ⟨"Arias-v-Bianchi", 4, 6⟩
      ∧ (3 : ℚ) / 10 < ProjectMatch.confidence ⟨"Arias-v-Bianchi", 4, 6⟩
      ∧ "Arias-v-Bianchi" ≠ "none") := by
  refine ⟨⟨by decide, by decide, ?_, by decide⟩, by decide, by decide, ?_, by decide⟩ <;>
    · show (3 : ℚ) / 10 < _ / _
      norm_num

/-- C2 (amended): for tool results longer than 100 characters a suggestion
is logged exactly when some project's confidence exceeds 0.3 and the
first-declared project with confidence above 0.3 differs from the current
project, and the suggestion names that first-declared strong project (not
necessarily the top scorer); results of at most 100 characters never
produce a suggestion. -/
theorem claim_c2_amended (result currentProject : String) :
    (suggestionLogged result currentProject = true ↔
      100 < result.length ∧
        ∃ p, firstStrongProject result = some p ∧ p ≠ currentProject)
    ∧ suggestedProject result = firstStrongProject result :=
  ⟨suggestionLogged_iff result currentProject, suggestedProject_eq_firstStrong result⟩

/-- C3: for every table entry, the confidence the hook computes equals the
number of that project's keywords occurring case-insensitively as
substrings of the result, divided by the total number of its keywords. -/
theorem claim_c3_confidence_formula (result : String) (pk : String × List String)
    (h : pk ∈ projectKeywords) :
    codeConfidence result pk = specConfidence result pk := by
  have hlow : ∀ kw ∈ pk.2, toLowerStr kw = kw := by
    have h5 := h
    simp only [projectKeywords, List.mem_cons, List.mem_singleton, List.not_mem_nil,
      or_false] at h5
    rcases h5 with h5 | h5 | h5 | h5 | h5 <;> subst h5 <;> decide
  have hcount : matchCount result pk.2 = specMatchCount result pk.2 := by
    unfold matchCount specMatchCount
    congr 1
    exact (List.filter_congr (fun kw hkw => by rw [hlow kw hkw])).symm
  unfold codeConfidence specConfidence
  rw [hcount]

/-- C3 witness: the `ChittyOS-Core` entry scored against a mixed-case
result. -/
theorem claim_c3_witness :
    ("ChittyOS-Core", ["chittyos", "mcp", "server", "canon"]) ∈ projectKeywords
    ∧ codeConfidence "Started the MCP server"
        ("ChittyOS-Core", ["chittyos", "mcp", "server", "canon"])
      = specConfidence "Started the MCP server"
          ("ChittyOS-Core", ["chittyos", "mcp", "server", "canon"]) :=
  ⟨by decide, claim_c3_confidence_formula "Started the MCP server" _ (by decide)⟩

/-- C4: a result containing every keyword of one project and no keyword of
any other project scores confidence 1 for that project and 0 for every
other project. -/
theorem claim_c4_full_match (result : String) (pk : String × List String)
    (hmem : pk ∈ projectKeywords)
    (hall : ∀ kw ∈ pk.2, strIncludes (toLowerStr result) kw = true)
    (hother : ∀ qk ∈ projectKeywords, qk.1 ≠ pk.1 →
      ∀ kw ∈ qk.2, strIncludes (toLowerStr result) kw = false) :
    codeConfidence result pk = 1
    ∧ ∀ qk ∈ projectKeywords, qk.1 ≠ pk.1 → codeConfidence result qk = 0 := by
  constructor
  · have hcount : matchCount result pk.2 = pk.2.length := by
      unfold matchCount
      rw [List.filter_eq_self.mpr hall]
    have hlen : pk.2.length ≠ 0 := by
      simp only [projectKeywords, List.mem_cons, List.mem_singleton, List.not_mem_nil,
        or_false] at hmem
      rcases hmem with h | h | h | h | h <;> subst h <;> decide
    unfold codeConfidence
    rw [hcount]
    exact div_self (by exact_mod_cast hlen)
  · intro qk hqk hne
    have hcount : matchCount result qk.2 = 0 := by
      unfold matchCount
      have hnil : qk.2.filter (fun kw => strIncludes (toLowerStr result) kw) = [] :=
        List.filter_eq_nil_iff.mpr
          (fun kw hkw => by simp [hother qk hqk hne kw hkw])
      rw [hnil]
      rfl
    unfold codeConfidence
    rw [hcount]
    simp

/-- Result containing every `ChittyOS-Core` keyword and no keyword of any
other project. -/
def c4Result : String :=
  "chittyos mcp server canon"

/-- C4 witness: the hypotheses hold for `c4Result` and `ChittyOS-Core`,
and the scored confidence is 1. -/
theorem claim_c4_witness :
    ("ChittyOS-Core", ["chittyos", "mcp", "server", "canon"]) ∈ projectKeywords
    ∧ (∀ kw ∈ ["chittyos", "mcp", "server", "canon"],
        strIncludes (toLowerStr c4Result) kw = true)
    ∧ codeConfidence c4Result ("ChittyOS-Core", ["chittyos", "mcp", "server", "canon"]) = 1 :=
  ⟨by decide, by decide,
    (claim_c4_full_match c4Result ("ChittyOS-Core", ["chittyos", "mcp", "server", "canon"])
      (by decide) (by decide) (by decide)).1⟩

/-- C5: `startSmartSession` returns `false` (and no unhandled error) when
no consolidated record file exists, and likewise when any restoration
step throws — the surrounding `try/catch` converts every throw into the
`false` return value. -/
theorem claim_c5_graceful_failure (fsys : String → Option String)
    (parseRecord : String → Option SessionData) (restore : StepResult EnvResult)
    (integrationWrite scriptWrite : StepResult Unit) (p : String)
    (h : fsys (smartSessionPath p) = none
      ∨ isThrown restore = true
      ∨ isThrown integrationWrite = true
      ∨ isThrown scriptWrite = true) :
    startSmartSession fsys parseRecord restore integrationWrite scriptWrite p = false := by
  unfold startSmartSession
  cases hload : loadSmartSession fsys parseRecord p with
  | none => rfl
  | some sd =>
    rcases h with h | h | h | h
    · unfold loadSmartSession at hload
      rw [h] at hload
      exact Option.noConfusion hload
    · cases restore with
      | ok a => simp [isThrown] at h
      | thrown e => rfl
    · cases restore with
      | thrown e => rfl
      | ok a =>
        cases integrationWrite with
        | ok b => simp [isThrown] at h
        | thrown e => rfl
    · cases restore with
      | thrown e => rfl
      | ok a =>
        cases integrationWrite with
        | thrown e => rfl
        | ok b =>
          cases scriptWrite with
          | ok u => simp [isThrown] at h
          | thrown e => rfl

/-- C5 witness: an empty file system (no record exists for `Demo`), all
later steps completing normally. -/
theorem claim_c5_witness :
    ((fun _ => (none : Option String)) (smartSessionPath "Demo") = none
      ∨ isThrown (StepResult.ok (⟨true, "/tmp"⟩ : EnvResult)) = true
      ∨ isThrown (StepResult.ok () : StepResult Unit) = true
      ∨ isThrown (StepResult.ok () : StepResult Unit) = true)
    ∧ startSmartSession (fun _ => none) (fun _ => none)
        (StepResult.ok ⟨true, "/tmp"⟩) (StepResult.ok ()) (StepResult.ok ()) "Demo" = false :=
  ⟨Or.inl rfl,
    claim_c5_graceful_failure (fun _ => none) (fun _ => none)
      (StepResult.ok ⟨true, "/tmp"⟩) (StepResult.ok ()) (StepResult.ok ()) "Demo" (Or.inl rfl)⟩

/-- C9: a tool result of at most 100 characters never produces a
suggestion, whatever keywords it contains and whatever the current
project is. -/
theorem claim_c9_short_result (result currentProject : String)
    (h : result.length ≤ 100) :
    suggestionLogged result currentProject = false := by
  unfold suggestionLogged
  rw [if_neg (by omega)]

/-- C9 witness: a 41-character result containing all six
`Arias-v-Bianchi` keywords still yields no suggestion. -/
theorem claim_c9_witness :
    ("arias bianchi legal court evidence motion" : String).length ≤ 100
    ∧ suggestionLogged "arias bianchi legal court evidence motion" "none" = false :=
  ⟨by decide,
    claim_c9_short_result "arias bianchi legal court evidence motion" "none" (by decide)⟩

/-- C10: every completed post-tool invocation leaves the current project's
statistics entry with `tool_uses` incremented by exactly one, `last_used`
set to the new timestamp, and `directories` / `agents_used` deduplicated
supersets of their previous values with the current directory and agent
unioned in. -/
theorem claim_c10_stats_update (stats : List (String × ProjectStats)) (cp cd an ts : String) :
    ∃ ns : ProjectStats,
      List.lookup cp (updateStats stats cp cd an ts) = some ns
      ∧ ns.tool_uses = (prevStats stats cp).tool_uses + 1
      ∧ ns.last_used = some ts
      ∧ ns.directories.Nodup
      ∧ (∀ d ∈ (prevStats stats cp).directories, d ∈ ns.directories)
      ∧ cd ∈ ns.directories
      ∧ ns.agents_used.Nodup
      ∧ (∀ a ∈ (prevStats stats cp).agents_used, a ∈ ns.agents_used)
      ∧ an ∈ ns.agents_used := by
  refine ⟨⟨(prevStats stats cp).tool_uses + 1, some ts,
      jsSetDedup ((prevStats stats cp).directories ++ [cd]),
      jsSetDedup ((prevStats stats cp).agents_used ++ [an])⟩,
    ?_, rfl, rfl, jsSetDedup_nodup _, ?_, ?_, jsSetDedup_nodup _, ?_, ?_⟩
  · have hmap := lookup_map_set
      (if (List.lookup cp stats).isSome then stats else stats ++ [(cp, emptyStats)]) cp
      (fun s => (⟨s.tool_uses + 1, some ts, jsSetDedup (s.directories ++ [cd]),
                  jsSetDedup (s.agents_used ++ [an])⟩ : ProjectStats))
    simp only [updateStats]
    rw [hmap, lookup_ensured]
    rfl
  · intro d hd
    rw [mem_jsSetDedup]
    exact List.mem_append_left _ hd
  · rw [mem_jsSetDedup]
    exact List.mem_append_right _ (List.mem_singleton_self cd)
  · intro a ha
    rw [mem_jsSetDedup]
    exact List.mem_append_left _ ha
  · rw [mem_jsSetDedup]
    exact List.mem_append_right _ (List.mem_singleton_self an)

/-- C2 (amended) witness: on the long result with current project `none`,
the first-declared strong project is `Arias-v-Bianchi`, so a suggestion is
logged. -/
theorem claim_c2_amended_witness :
    suggestionLogged c2LongResult "none" = true
    ∧ suggestedProject c2LongResult = firstStrongProject c2LongResult :=
  ⟨(claim_c2_amended c2LongResult "none").1.mpr
      ⟨by decide, "Arias-v-Bianchi",
        by rw [← suggestedProject_eq_firstStrong]; decide, by decide⟩,
    (claim_c2_amended c2LongResult "none").2⟩

/-- C10 witness: updating an empty statistics record for project `P`. -/
theorem claim_c10_witness :
    ∃ ns : ProjectStats,
      List.lookup "P" (updateStats [] "P" "/d" "agent" "T") = some ns
      ∧ ns.tool_uses = (prevStats [] "P").tool_uses + 1
      ∧ ns.last_used = some "T"
      ∧ ns.directories.Nodup
      ∧ (∀ d ∈ (prevStats [] "P").directories, d ∈ ns.directories)
      ∧ "/d" ∈ ns.directories
      ∧ ns.agents_used.Nodup
      ∧ (∀ a ∈ (prevStats [] "P").agents_used, a ∈ ns.agents_used)
      ∧ "agent" ∈ ns.agents_used :=
  claim_c10_stats_update [] "P" "/d" "agent" "T"
